import Mathlib

/-!
Shallow embedding of `src/computer_version/cube_detection.py`.

The pipeline reads five photographs, thresholds them per color in HSV space,
crops by the white mask, detects colored blobs per face, and stitches the
five faces into a net image.

Modelling conventions:
* a pixel is a triple of natural numbers (the uint8 HSV channels);
* a photograph (`Image`) is a list of rows of pixels; a `Mask` is the
  boolean grid produced by `cv2.inRange`;
* Python `list` indexing `xs[i]` raises `IndexError` out of bounds, so the
  functions that index lists return `Option`;
* `cv2.inRange` and `cv2.bitwise_and(img, img, mask=m)` are OpenCV
  primitives; they are embedded per their pixelwise semantics (inclusive
  per-channel bounds; copy-where-mask-set);
* `cv2.findContours` / `cv2.contourArea` / `cv2.moments` perform geometry
  that is external to this repository, so a contour is modelled as a record
  carrying its area and raw moments, and the contour extractor is an
  explicit function parameter `findC`;
* Python float arithmetic on the small ratios involved is modelled with
  exact rationals, and `int(...)` of a nonnegative quotient as the floor.
-/

namespace CubeDetection

/-- One HSV pixel (three uint8 channels, modelled as naturals). -/
structure HSV where
  h : ℕ
  s : ℕ
  v : ℕ
deriving DecidableEq

/-- One threshold triple, as in the `np.array([h, s, v])` bounds of `color_dict`. -/
structure Bound where
  h : ℕ
  s : ℕ
  v : ℕ
deriving DecidableEq

/-- A photograph: rows of HSV pixels. -/
abbrev Image := List (List HSV)

/-- A binary mask: rows of booleans, same layout as its source image. -/
abbrev Mask := List (List Bool)

/-- Pixelwise test of `cv2.inRange`: set iff every channel lies within the
inclusive lower/upper bounds. -/
def inRangePix (lo hi : Bound) (p : HSV) : Bool :=
  decide (lo.h ≤ p.h ∧ p.h ≤ hi.h ∧ lo.s ≤ p.s ∧ p.s ≤ hi.s ∧ lo.v ≤ p.v ∧ p.v ≤ hi.v)

/-- `cv2.inRange(img, lower, upper)`: the mask of pixels within bounds. -/
def inRange (lo hi : Bound) (img : Image) : Mask :=
  img.map (fun row => row.map (inRangePix lo hi))

/-- The `white` lower bound of `color_dict`. -/
def whiteLo : Bound := ⟨0, 0, 50⟩

/-- The `white` upper bound of `color_dict`. -/
def whiteHi : Bound := ⟨255, 255, 255⟩

/-- `_filter_color(lower, upper, imgs)`: appends `cv2.inRange(imgs[k], ...)`
for `k in range(5)`; indexing out of bounds raises, hence `Option`. -/
def filter_color (lo hi : Bound) (imgs : List Image) : Option (List Mask) :=
  (imgs[0]?).bind fun a0 =>
  (imgs[1]?).bind fun a1 =>
  (imgs[2]?).bind fun a2 =>
  (imgs[3]?).bind fun a3 =>
  (imgs[4]?).bind fun a4 =>
  some [inRange lo hi a0, inRange lo hi a1, inRange lo hi a2,
        inRange lo hi a3, inRange lo hi a4]

/-- `cv2.bitwise_and(img, img, mask=m)`: keep the pixel where the mask is
set, zero elsewhere. -/
def maskAnd (img : Image) (m : Mask) : Image :=
  List.zipWith (fun row mrow =>
    List.zipWith (fun p b => if b then p else (⟨0, 0, 0⟩ : HSV)) row mrow) img m

/-- `_cut_imgs(imgs)`: for `i in range(5)` appends
`bitwise_and(imgs[i], imgs[i], mask=_filter_color(white..., imgs)[i])`.
The white-mask batch always has length five when it is produced, so the
inner `[i]` lookups are written with `getD`. -/
def cut_imgs (imgs : List Image) : Option (List Image) :=
  (filter_color whiteLo whiteHi imgs).bind fun ms =>
  (imgs[0]?).bind fun a0 =>
  (imgs[1]?).bind fun a1 =>
  (imgs[2]?).bind fun a2 =>
  (imgs[3]?).bind fun a3 =>
  (imgs[4]?).bind fun a4 =>
  some [maskAnd a0 (ms.getD 0 []), maskAnd a1 (ms.getD 1 []),
        maskAnd a2 (ms.getD 2 []), maskAnd a3 (ms.getD 3 []),
        maskAnd a4 (ms.getD 4 [])]

/-- A face color map: a Python `dict` from color name to border position,
modelled as an insertion-ordered association list with unique keys. -/
abbrev Dict := List (String × ℕ)

/-- Python `d[key] = val`: overwrite in place when the key exists, append
otherwise (insertion order preserved). -/
def dictSet (d : Dict) (key : String) (val : ℕ) : Dict :=
  if d.any (fun p => p.1 == key) then
    d.map (fun p => if p.1 == key then (key, val) else p)
  else d ++ [(key, val)]

/-- `_get_key(dictionary, value)`: the list comprehension
`[l for l, v in dictionary.items() if v == value]`. -/
def get_key (d : Dict) (val : ℕ) : List String :=
  (d.filter (fun p => p.2 == val)).map (fun p => p.1)

/-- A contour as returned by `cv2.findContours`, abstracted to the
quantities the code reads off it: `cv2.contourArea` and the raw moments
`m00`, `m10`, `m01` of `cv2.moments`. -/
structure Contour where
  area : ℚ
  m00 : ℚ
  m10 : ℚ
  m01 : ℚ
deriving DecidableEq

/-- The zone classification chain of `_color_detect` (lines 133-140):
`if/elif` over the normalized centroid, all inequalities strict, returning
the border position `0`/`2`/`1`/`3` in that evaluation order.  The Python
float thresholds `0.2`, `0.8`, `0.3`, `0.7` are modelled as the exact
rationals they denote. -/
def classify (vertical horizontal : ℚ) : Option ℕ :=
  if vertical < 1/5 ∧ 3/10 < horizontal ∧ horizontal < 7/10 then some 0
  else if 4/5 < vertical ∧ 3/10 < horizontal ∧ horizontal < 7/10 then some 2
  else if 4/5 < horizontal ∧ 3/10 < vertical ∧ vertical < 7/10 then some 1
  else if horizontal < 1/5 ∧ 3/10 < vertical ∧ vertical < 7/10 then some 3
  else none

/-- The write step following the classification: a matched zone stores
`color_content[index_mask][color] = pos`; the `else` branch only prints
`error` and leaves the map unchanged. -/
def applyClassify (d : Dict) (color : String) (vertical horizontal : ℚ) : Dict :=
  match classify vertical horizontal with
  | some pos => dictSet d color pos
  | none => d

/-- One iteration `k` of the contour loop of `_color_detect`
(lines 123-142): test `contourArea(contours[k]) > 100`, then take
`cnt = contours[0]` (as written in the source), compute the truncated
centroid from its moments, normalize by the mask shape `(rows, cols)`,
and classify unless the color is `white`.  The `k ≥ len` case cannot be
reached from `detectContours`. -/
def detectOne (shape : ℕ × ℕ) (contours : List Contour) (color : String)
    (d : Dict) (k : ℕ) : Dict :=
  match contours[k]? with
  | none => d
  | some ck =>
    if ck.area > 100 then
      match contours[0]? with
      | none => d
      | some cnt =>
        let cx : ℤ := ⌊cnt.m10 / cnt.m00⌋
        let cy : ℤ := ⌊cnt.m01 / cnt.m00⌋
        let horizontal : ℚ := (cx : ℚ) / (shape.2 : ℚ)
        let vertical : ℚ := (cy : ℚ) / (shape.1 : ℚ)
        if color ≠ "white" then applyClassify d color vertical horizontal else d
    else d

/-- The whole `for k in range(len(contours))` loop over one mask. -/
def detectContours (shape : ℕ × ℕ) (contours : List Contour) (color : String)
    (d : Dict) : Dict :=
  (List.range contours.length).foldl (detectOne shape contours color) d

/-- The shape `(rows, cols)` of a mask, as `mask.shape` reads it. -/
def maskShape (m : Mask) : ℕ × ℕ := (m.length, (m.headD []).length)

/-- The entries of `color_dict`, in insertion order. -/
def colorList : List (String × Bound × Bound) :=
  [("white", ⟨0, 0, 50⟩, ⟨255, 255, 255⟩),
   ("yellow", ⟨15, 0, 0⟩, ⟨30, 255, 255⟩),
   ("green", ⟨60, 0, 0⟩, ⟨75, 255, 255⟩),
   ("blue", ⟨105, 0, 0⟩, ⟨120, 255, 255⟩),
   ("purple", ⟨145, 0, 0⟩, ⟨160, 255, 255⟩),
   ("orange", ⟨5, 0, 0⟩, ⟨15, 255, 255⟩),
   ("red", ⟨175, 0, 0⟩, ⟨190, 255, 255⟩),
   ("pink", ⟨160, 0, 0⟩, ⟨175, 255, 255⟩),
   ("light_blue", ⟨90, 0, 0⟩, ⟨105, 255, 255⟩)]

/-- One color pass of `_color_detect`: filter the batch, then update each
face map from the contours of its mask (the `for mask in masks` loop with
`index_mask` running over the five accumulators).  `findC` stands for
`cv2.findContours`. -/
def detectStep (findC : Mask → List Contour) (imgs : List Image)
    (content : List Dict) (entry : String × Bound × Bound) : Option (List Dict) :=
  (filter_color entry.2.1 entry.2.2 imgs).bind fun masks =>
  some (List.zipWith
    (fun m d => detectContours (maskShape m) (findC m) entry.1 d) masks content)

/-- `_color_detect(imgs)`: fold the per-color pass over `color_dict`,
starting from five empty maps. -/
def color_detect (findC : Mask → List Contour) (imgs : List Image) :
    Option (List Dict) :=
  colorList.foldlM (detectStep findC imgs) [[], [], [], [], []]

/-- From here on images are tracked by their numpy shape `(rows, cols)`:
`cv2.resize` interpolation and pixel contents are external, and the
stitching code reads shapes only. -/
structure Img where
  h : ℕ
  w : ℕ
deriving DecidableEq

/-- The module constant `image_height = 300`. -/
def image_height : ℕ := 300

/-- One `cv2.resize(src=img, dsize=(width, image_height))` with
`width = int(img.shape[1] * image_height / img.shape[0])`; the float
truncation of a nonnegative quotient is natural division. -/
def resizeOne (img : Img) : Img :=
  ⟨image_height, img.w * image_height / img.h⟩

/-- The body of `_resize_imgs`: `index = 0; for img in imgs:
imgs[index] = cv2.resize(...); index += 1`.  The loop reads position
`index` of the buffer and immediately overwrites it, so it is embedded as
an index-driven rewrite of the buffer. -/
def resizeGo (buf : List Img) (index : ℕ) : List Img :=
  if hlt : index < buf.length then
    resizeGo (buf.set index (resizeOne (buf.get ⟨index, hlt⟩))) (index + 1)
  else buf
termination_by buf.length - index
decreasing_by simp only [List.length_set]; omega

/-- The value `_resize_imgs(imgs)` returns. -/
def resize_imgs (imgs : List Img) : List Img := resizeGo imgs 0

/-- Store-passing view of a call to `_resize_imgs`: first component the
returned list, second the contents of the caller's argument list after the
call.  The loop assigns through `imgs[index] = ...` and the function
returns that same list object, so both components are the rewritten
buffer. -/
def resize_imgs_call (imgs : List Img) : List Img × List Img :=
  (resize_imgs imgs, resize_imgs imgs)

/-- The accumulator loop of `_type_division`: `index` the running counter,
`bs` the `bottom_index` list, `t` the current `top_index` (initially 0,
overwritten by every map of length four). -/
def typeDivGo : ℕ → List ℕ → ℕ → List Dict → List ℕ × ℕ
  | _, bs, t, [] => (bs, t)
  | i, bs, t, d :: ds =>
      if d.length = 4 then typeDivGo (i + 1) bs i ds
      else typeDivGo (i + 1) (bs ++ [i]) t ds

/-- `_type_division(dict_color_map)`. -/
def type_division (maps : List Dict) : List ℕ × ℕ := typeDivGo 0 [] 0 maps

/-- `np.concatenate((a, b), axis=1)` at shape level; numpy requires the
row counts to agree (they do after `_resize_imgs`), and the result keeps
the first argument's height. -/
def hconcat (a b : Img) : Img := ⟨a.h, a.w + b.w⟩

/-- The loop state of `_combine_imgs`: the growing strip image `left_img`,
the current `connect_color`, and `length_top`.  `strip` additionally
records the indices of the faces concatenated so far (the source keeps
only the concatenated pixels; `left_img.w` is always the total width of
the recorded faces, so `strip` is a ghost trace of the same data). -/
structure CState where
  leftImg : Img
  connect : List String
  lengthTop : ℕ
  strip : List ℕ
deriving DecidableEq

/-- One inner-loop iteration of `_combine_imgs` (lines 90-96) at counter
`k`: look up `bottom_index[k+1]` and its map; when `connect_color`
matches that face's LEFT colors, concatenate the face, take its RIGHT
colors as the new connector, and when its TOP colors equal the top face's
BOTTOM colors set `length_top = left_img.shape[0] - face.shape[0]`
(heights, as written in the source; subtraction cannot go negative since
concatenation preserves the common height). -/
def combineStep (imgs : List Img) (maps : List Dict) (bottom : List ℕ)
    (top : ℕ) (s : CState) (k : ℕ) : Option CState :=
  (bottom[k + 1]?).bind fun bi =>
  (maps[bi]?).bind fun m =>
  if s.connect = get_key m 3 then
    (imgs[bi]?).bind fun im =>
    (maps[top]?).bind fun mt =>
    some { leftImg := hconcat s.leftImg im,
           connect := get_key m 1,
           lengthTop :=
             if get_key m 0 = get_key mt 2 then
               (hconcat s.leftImg im).h - im.h
             else s.lengthTop,
           strip := s.strip ++ [bi] }
  else some s

/-- The iteration counters of `for i in range(3): for k in range(3)`. -/
def loopKs : List ℕ := [0, 1, 2, 0, 1, 2, 0, 1, 2]

/-- The slice `result[length_top:width_top, image_height:height_top]`
into which the top face is written. -/
structure Placement where
  rowLo : ℕ
  rowHi : ℕ
  colLo : ℕ
  colHi : ℕ
deriving DecidableEq

/-- The outcome of `_combine_imgs`: the final loop state, the shape of
`result = np.concatenate((canvas_top, left_img), axis=0)` (the canvas has
`left_img`'s shape), and the slice receiving the top face. -/
structure CombineResult where
  state : CState
  result : Img
  place : Placement
deriving DecidableEq

/-- `_combine_imgs(img_white, dict_color_map, bottom_index, top_index)`.
Line 106 assigns `top_img` into the slice
`result[length_top:width_top, image_height:height_top]` of the
`(2 * left_img.rows, left_img.cols)` stack `result`.  Python slices clip
at the array bounds, and numpy raises `ValueError` when the clipped
slice's shape differs from `top_img`'s shape (a unit source dimension
would broadcast, but no face image here has a dimension of one), so the
embedding returns `none` in that case.  The clipped extents are
`min(width_top, rows) - min(length_top, rows)` and
`min(height_top, cols) - min(image_height, cols)`, with
`width_top = top_img.rows + length_top` and
`height_top = top_img.cols + image_height` as in lines 103-104. -/
def combine_imgs (imgs : List Img) (maps : List Dict) (bottom : List ℕ)
    (top : ℕ) : Option CombineResult :=
  (bottom[0]?).bind fun b0 =>
  (imgs[b0]?).bind fun seed =>
  (maps[b0]?).bind fun m0 =>
  (loopKs.foldlM (combineStep imgs maps bottom top)
    ⟨seed, get_key m0 1, 0, [b0]⟩).bind fun s =>
  (imgs[top]?).bind fun topImg =>
  if min (topImg.h + s.lengthTop) (s.leftImg.h + s.leftImg.h) -
       min s.lengthTop (s.leftImg.h + s.leftImg.h) = topImg.h ∧
     min (topImg.w + image_height) s.leftImg.w -
       min image_height s.leftImg.w = topImg.w then
    some ⟨s, ⟨s.leftImg.h + s.leftImg.h, s.leftImg.w⟩,
          ⟨s.lengthTop, topImg.h + s.lengthTop,
           image_height, topImg.w + image_height⟩⟩
  else none

/-- The role-resolution plus stitching steps of `cut_cube`
(lines 178-180): divide the faces, then combine. -/
def resolveRun (maps : List Dict) (imgs : List Img) :
    (List ℕ × ℕ) × Option CombineResult :=
  (type_division maps,
   combine_imgs imgs maps (type_division maps).1 (type_division maps).2)

/-! Helper lemmas. -/

lemma typeDivGo_no_top (ds : List Dict) :
    ∀ (i : ℕ) (bs : List ℕ) (t : ℕ), (∀ d ∈ ds, d.length ≠ 4) →
      typeDivGo i bs t ds = (bs ++ List.range' i ds.length, t) := by
  induction ds with
  | nil => intro i bs t _; simp [typeDivGo]
  | cons d ds ih =>
      intro i bs t hall
      have hd : d.length ≠ 4 := hall d (by simp)
      rw [typeDivGo, if_neg hd,
        ih (i + 1) (bs ++ [i]) t (fun d' hd' => hall d' (by simp [hd']))]
      simp [List.range'_succ]

/-- C3 (amended): when no face color map has exactly four entries,
`_type_division` does not fail: it returns every index as a bottom (SIDE)
index and leaves the top index at its default `0`. -/
theorem c3_amended (maps : List Dict) (hall : ∀ d ∈ maps, d.length ≠ 4) :
    type_division maps = (List.range maps.length, 0) := by
  rw [type_division, typeDivGo_no_top maps 0 [] 0 hall, List.range_eq_range']
  simp

/-- C3 amended-claim witness at five empty maps. -/
theorem c3_amended_w : type_division [[], [], [], [], []] = (List.range 5, 0) :=
  c3_amended [[], [], [], [], []] (by decide)

/-- C3 counterexample: with five face color maps none of which has four
entries, the run does not fail: `_type_division` classifies all five faces
as SIDE with top index defaulting to `0`, and `_combine_imgs` still
produces a net image. -/
theorem c3_counterexample :
    (resolveRun [[], [], [], [], []]
        [⟨300, 350⟩, ⟨300, 300⟩, ⟨300, 250⟩, ⟨300, 200⟩, ⟨300, 280⟩]).1 =
      ([0, 1, 2, 3, 4], 0) ∧
    ((resolveRun [[], [], [], [], []]
        [⟨300, 350⟩, ⟨300, 300⟩, ⟨300, 250⟩, ⟨300, 200⟩, ⟨300, 280⟩]).2).isSome =
      true := by decide

/-- C9: role partition plus chain resolution is a pure function of the
five face color maps and face images: two runs on equal inputs return the
same side-face order, top index and recorded offset. -/
theorem c9_deterministic (maps1 maps2 : List Dict) (imgs1 imgs2 : List Img)
    (hm : maps1 = maps2) (hi : imgs1 = imgs2) :
    resolveRun maps1 imgs1 = resolveRun maps2 imgs2 := by
  rw [hm, hi]

/-- C9 witness at a concrete input. -/
theorem c9_deterministic_w :
    resolveRun [[("yellow", 1)]] [⟨300, 100⟩] =
      resolveRun [[("yellow", 1)]] [⟨300, 100⟩] :=
  c9_deterministic _ _ _ _ rfl rfl

/-- C6: the zone classification uses strict inequalities throughout, in
the order TOP, BOTTOM, RIGHT, LEFT; a normalized centroid with either
coordinate exactly at one of the thresholds 0.2, 0.3, 0.7, 0.8 matches no
zone, and the resulting classification failure leaves the face color map
unchanged (the `else` branch only prints a diagnostic; the run goes on). -/
theorem c6_boundary (v h : ℚ) (d : Dict) (color : String)
    (hb : v = 1/5 ∨ v = 3/10 ∨ v = 7/10 ∨ v = 4/5 ∨
          h = 1/5 ∨ h = 3/10 ∨ h = 7/10 ∨ h = 4/5) :
    classify v h = none ∧ applyClassify d color v h = d := by
  have hnone : classify v h = none := by
    rcases hb with rfl | rfl | rfl | rfl | rfl | rfl | rfl | rfl <;>
      norm_num [classify]
  exact ⟨hnone, by simp [applyClassify, hnone]⟩

/-- C6 witness: a centroid with horizontal coordinate exactly 0.3. -/
theorem c6_boundary_w :
    classify (1/2) (3/10) = none ∧
      applyClassify [] "green" (1/2) (3/10) = [] :=
  c6_boundary (1/2) (3/10) [] "green"
    (Or.inr (Or.inr (Or.inr (Or.inr (Or.inr (Or.inl rfl))))))

/-- C1: evaluation of `_combine_imgs` on a run where the second side face
(index 1, appended after the seed face of width 350) has TOP color `red`
equal to the top face's BOTTOM color.  The cumulative width before that
face is 350, but the recorded `length_top` is
`left_img.shape[0] - face.shape[0] = 300 - 300 = 0` (shape index 0 is the
height, not the width), and the top face is pasted at the fixed column
band starting at `image_height = 300` with `length_top` used as the ROW
offset: the strip is `[0, 1, 2, 3]`, `length_top = 0`, the paste slice
starts at row 0 and column 300.  The claimed lateral offset 350 is never
recorded. -/
theorem c1_code_eval :
    (combine_imgs [⟨300, 350⟩, ⟨300, 300⟩, ⟨300, 250⟩, ⟨300, 200⟩, ⟨300, 280⟩]
        [[("yellow", 1)], [("yellow", 3), ("blue", 1), ("red", 0)],
         [("blue", 3), ("purple", 1)], [("purple", 3)],
         [("green", 0), ("orange", 1), ("red", 2), ("pink", 3)]]
        [0, 1, 2, 3] 4).map
      (fun r => (r.state.strip, r.state.lengthTop, r.place.rowLo, r.place.colLo)) =
      some ([0, 1, 2, 3], 0, 0, 300) ∧
    (combine_imgs [⟨300, 350⟩, ⟨300, 300⟩, ⟨300, 250⟩, ⟨300, 200⟩, ⟨300, 280⟩]
        [[("yellow", 1)], [("yellow", 3), ("blue", 1), ("red", 0)],
         [("blue", 3), ("purple", 1)], [("purple", 3)],
         [("green", 0), ("orange", 1), ("red", 2), ("pink", 3)]]
        [0, 1, 2, 3] 4).map (fun r => r.state.lengthTop) ≠ some 350 := by
  decide

/-- C2: evaluation of the contour loop on a mask holding two contours:
contour 0 of area 50 (noise, centroid at the image center) and contour 1
of area 200 (surviving, centroid in the TOP zone).  The code takes
`cnt = contours[0]`, so the surviving blob is classified from the noise
contour's centroid and the face color map stays empty, although the
surviving blob's own centroid (v = 0.1, h = 0.5) classifies as TOP. -/
theorem c2_code_eval :
    detectContours (10, 10)
        [⟨50, 50, 250, 250⟩, ⟨200, 200, 1000, 200⟩] "yellow" [] = [] ∧
      classify (1/10) (1/2) = some 0 := by
  constructor
  · norm_num [detectContours, List.range_succ, detectOne, applyClassify, classify]
  · norm_num [classify]

/-- C4 counterexample: no side face's LEFT colors match the seed
connector `["yellow"]`, so the loop silently never extends the strip; the
seed face is 600 pixels wide, so the top-face paste slice
`[0:300, 300:580]` fits inside the 600-wide seed-only stack and
`_combine_imgs` returns a composed image built from the seed face alone
(strip of one face, not four). -/
theorem c4_counterexample :
    (combine_imgs [⟨300, 600⟩, ⟨300, 300⟩, ⟨300, 250⟩, ⟨300, 200⟩, ⟨300, 280⟩]
        [[("yellow", 1)], [("blue", 3), ("green", 1)], [("purple", 3)],
         [("red", 3)], [("orange", 2)]] [0, 1, 2, 3] 4).map
      (fun r => (r.state.strip, r.result)) = some ([0], ⟨600, 600⟩) ∧
    ([0] : List ℕ).length < 4 := by decide

/-- C5 counterexample: faces 1 and 2 chain into each other (face 1 RIGHT
green / face 2 LEFT green, face 2 RIGHT yellow / face 1 LEFT yellow), and
appended faces are never removed from consideration, so the nine scan
iterations append faces 1 and 2 three times each: the produced strip is
`[0, 1, 2, 1, 2, 1, 2]`, in which side face 1 appears three times. -/
theorem c5_counterexample :
    (combine_imgs [⟨300, 350⟩, ⟨300, 300⟩, ⟨300, 250⟩, ⟨300, 200⟩, ⟨300, 280⟩]
        [[("yellow", 1)], [("yellow", 3), ("green", 1)],
         [("green", 3), ("yellow", 1)], [("blue", 3)],
         [("red", 0), ("orange", 1), ("purple", 2), ("pink", 3)]]
        [0, 1, 2, 3] 4).map (fun r => r.state.strip) =
      some [0, 1, 2, 1, 2, 1, 2] ∧
    ([0, 1, 2, 1, 2, 1, 2] : List ℕ).count 1 = 3 := by decide

lemma filter_color_length_lt (lo hi : Bound) (imgs : List Image)
    (hlen : imgs.length < 5) : filter_color lo hi imgs = none := by
  have h4 : imgs[4]? = none := List.getElem?_eq_none (by omega)
  cases e0 : imgs[0]? <;> cases e1 : imgs[1]? <;>
    cases e2 : imgs[2]? <;> cases e3 : imgs[3]? <;>
      simp [filter_color, e0, e1, e2, e3, h4]

lemma filter_color_take5 (lo hi : Bound) (imgs : List Image) :
    filter_color lo hi (imgs.take 5) = filter_color lo hi imgs := by
  unfold filter_color
  rw [List.getElem?_take_of_lt (by norm_num : (0:ℕ) < 5),
    List.getElem?_take_of_lt (by norm_num : (1:ℕ) < 5),
    List.getElem?_take_of_lt (by norm_num : (2:ℕ) < 5),
    List.getElem?_take_of_lt (by norm_num : (3:ℕ) < 5),
    List.getElem?_take_of_lt (by norm_num : (4:ℕ) < 5)]

lemma cut_imgs_length_lt (imgs : List Image) (hlen : imgs.length < 5) :
    cut_imgs imgs = none := by
  simp [cut_imgs, filter_color_length_lt whiteLo whiteHi imgs hlen]

lemma cut_imgs_take5 (imgs : List Image) :
    cut_imgs (imgs.take 5) = cut_imgs imgs := by
  unfold cut_imgs
  rw [filter_color_take5, List.getElem?_take_of_lt (by norm_num : (0:ℕ) < 5),
    List.getElem?_take_of_lt (by norm_num : (1:ℕ) < 5),
    List.getElem?_take_of_lt (by norm_num : (2:ℕ) < 5),
    List.getElem?_take_of_lt (by norm_num : (3:ℕ) < 5),
    List.getElem?_take_of_lt (by norm_num : (4:ℕ) < 5)]

lemma foldlM_option_congr {α β : Type} (f g : β → α → Option β)
    (hfg : ∀ b a, f b a = g b a) :
    ∀ (l : List α) (init : β), l.foldlM f init = l.foldlM g init := by
  intro l
  induction l with
  | nil => intro init; rfl
  | cons a l ih =>
      intro init
      rw [List.foldlM_cons, List.foldlM_cons, hfg]
      cases g init a with
      | none => rfl
      | some b => simpa using ih b

lemma detectStep_take5 (findC : Mask → List Contour) (imgs : List Image)
    (content : List Dict) (entry : String × Bound × Bound) :
    detectStep findC (imgs.take 5) content entry = detectStep findC imgs content entry := by
  unfold detectStep
  rw [filter_color_take5]

lemma color_detect_length_lt (findC : Mask → List Contour) (imgs : List Image)
    (hlen : imgs.length < 5) : color_detect findC imgs = none := by
  have hstep : detectStep findC imgs [[], [], [], [], []]
      ("white", ⟨0, 0, 50⟩, ⟨255, 255, 255⟩) = none := by
    simp [detectStep, filter_color_length_lt _ _ imgs hlen]
  simp [color_detect, colorList, List.foldlM_cons, hstep]

lemma color_detect_take5 (findC : Mask → List Contour) (imgs : List Image) :
    color_detect findC (imgs.take 5) = color_detect findC imgs := by
  unfold color_detect
  exact foldlM_option_congr _ _
    (fun content entry => detectStep_take5 findC imgs content entry) colorList _

lemma take5_eq_of_get? (imgs : List Image) (a0 a1 a2 a3 a4 : Image)
    (e0 : imgs[0]? = some a0) (e1 : imgs[1]? = some a1)
    (e2 : imgs[2]? = some a2) (e3 : imgs[3]? = some a3)
    (e4 : imgs[4]? = some a4) :
    imgs.take 5 = [a0, a1, a2, a3, a4] := by
  rcases imgs with _ | ⟨x0, _ | ⟨x1, _ | ⟨x2, _ | ⟨x3, _ | ⟨x4, rest⟩⟩⟩⟩⟩ <;>
    simp_all

/-- C7: a pixel of the mask is set iff each HSV channel lies within the
inclusive per-channel bounds; a profile whose hue upper bound is below its
hue lower bound yields an all-clear mask; and `_filter_color` maps the
profile over the first five photographs, so the five masks come out in
photograph order. -/
theorem c7_in_range :
    (∀ (lo hi : Bound) (p : HSV),
        inRangePix lo hi p = true ↔
          (lo.h ≤ p.h ∧ p.h ≤ hi.h ∧ lo.s ≤ p.s ∧ p.s ≤ hi.s ∧
           lo.v ≤ p.v ∧ p.v ≤ hi.v))
    ∧ (∀ (lo hi : Bound) (img : Image), hi.h < lo.h →
        ∀ row ∈ inRange lo hi img, ∀ b ∈ row, b = false)
    ∧ (∀ (lo hi : Bound) (imgs : List Image) (ms : List Mask),
        filter_color lo hi imgs = some ms →
          ms = (imgs.take 5).map (inRange lo hi)) := by
  refine ⟨?_, ?_, ?_⟩
  · intro lo hi p
    simp [inRangePix]
  · intro lo hi img hwrap row hrow b hb
    rw [inRange] at hrow
    obtain ⟨r, _, rfl⟩ := List.mem_map.mp hrow
    obtain ⟨p, _, rfl⟩ := List.mem_map.mp hb
    simp only [inRangePix, decide_eq_false_iff_not]
    omega
  · intro lo hi imgs ms hms
    cases e0 : imgs[0]? <;> cases e1 : imgs[1]? <;>
      cases e2 : imgs[2]? <;> cases e3 : imgs[3]? <;>
        cases e4 : imgs[4]? <;>
          simp [filter_color, e0, e1, e2, e3, e4] at hms
    rw [take5_eq_of_get? imgs _ _ _ _ _ e0 e1 e2 e3 e4, ← hms]
    simp

/-- C7 witness: the wrap-around part applied to a profile with hue upper
bound 5 below hue lower bound 10, instantiated at a concrete pixel of the
concrete mask. -/
theorem c7_in_range_w :
    inRangePix ⟨10, 0, 0⟩ ⟨5, 255, 255⟩ ⟨7, 200, 200⟩ = false :=
  c7_in_range.2.1 ⟨10, 0, 0⟩ ⟨5, 255, 255⟩ [[⟨7, 200, 200⟩]] (by norm_num)
    [inRangePix ⟨10, 0, 0⟩ ⟨5, 255, 255⟩ ⟨7, 200, 200⟩] (by simp [inRange])
    (inRangePix ⟨10, 0, 0⟩ ⟨5, 255, 255⟩ ⟨7, 200, 200⟩) (by simp)

/-- C10: mask filtering, cropping and color detection index positions 0
through 4 of the photograph list: with fewer than five photographs each of
them fails with an out-of-bounds lookup (modelled as `none`), and any
photographs beyond the fifth never influence the result. -/
theorem c10_five_images :
    (∀ (lo hi : Bound) (findC : Mask → List Contour) (imgs : List Image),
        imgs.length < 5 →
          filter_color lo hi imgs = none ∧ cut_imgs imgs = none ∧
            color_detect findC imgs = none)
    ∧ (∀ (lo hi : Bound) (findC : Mask → List Contour) (imgs : List Image),
        filter_color lo hi imgs = filter_color lo hi (imgs.take 5) ∧
          cut_imgs imgs = cut_imgs (imgs.take 5) ∧
            color_detect findC imgs = color_detect findC (imgs.take 5)) := by
  constructor
  · intro lo hi findC imgs hlen
    exact ⟨filter_color_length_lt lo hi imgs hlen, cut_imgs_length_lt imgs hlen,
      color_detect_length_lt findC imgs hlen⟩
  · intro lo hi findC imgs
    exact ⟨(filter_color_take5 lo hi imgs).symm, (cut_imgs_take5 imgs).symm,
      (color_detect_take5 findC imgs).symm⟩

/-- C10 witness: the empty photograph list (length 0 < 5) makes all three
stages fail. -/
theorem c10_five_images_w :
    filter_color whiteLo whiteHi [] = none ∧ cut_imgs [] = none ∧
      color_detect (fun _ => []) [] = none :=
  c10_five_images.1 whiteLo whiteHi (fun _ => []) [] (by norm_num)

lemma resizeGo_eq (n : ℕ) : ∀ (buf : List Img) (index : ℕ),
    buf.length ≤ index + n →
    resizeGo buf index = buf.take index ++ (buf.drop index).map resizeOne := by
  induction n with
  | zero =>
      intro buf index hle
      unfold resizeGo
      rw [dif_neg (by omega), List.take_of_length_le (by omega),
        List.drop_eq_nil_of_le (by omega)]
      simp
  | succ n ih =>
      intro buf index hle
      unfold resizeGo
      by_cases hlt : index < buf.length
      · rw [dif_pos hlt, ih _ (index + 1) (by rw [List.length_set]; omega)]
        have hlen : (buf.take index).length = index := by
          rw [List.length_take]; omega
        have hset := List.set_eq_take_cons_drop (resizeOne (buf.get ⟨index, hlt⟩)) hlt
        have htake : (buf.set index (resizeOne (buf.get ⟨index, hlt⟩))).take (index + 1)
            = buf.take index ++ [resizeOne (buf.get ⟨index, hlt⟩)] := by
          rw [hset, List.take_append_eq_append_take, hlen, List.take_take,
            show (index + 1) ⊓ index = index by omega,
            show index + 1 - index = 1 by omega]
          simp
        have hdrop : (buf.set index (resizeOne (buf.get ⟨index, hlt⟩))).drop (index + 1)
            = buf.drop (index + 1) := by
          rw [List.drop_set, if_pos (by omega)]
        rw [htake, hdrop, List.drop_eq_getElem_cons hlt]
        simp [List.get_eq_getElem]
        rw [List.drop_eq_getElem_cons
          (show index < (List.map resizeOne buf).length by simpa using hlt)]
        simp
      · rw [dif_neg hlt]
        rw [List.take_of_length_le (by omega), List.drop_eq_nil_of_le (by omega)]
        simp

/-- C8 (amended): `_resize_imgs` is not mutation-free: the loop overwrites
each position of the caller's list with the resized image, so after the
call the caller's list holds the element-wise resized images — identical
to the returned list — rather than the original cropped images. -/
theorem c8_amended (imgs : List Img) :
    resize_imgs_call imgs = (imgs.map resizeOne, imgs.map resizeOne) := by
  have hgo := resizeGo_eq imgs.length imgs 0 (by omega)
  simp only [List.take_zero, List.drop_zero, List.nil_append] at hgo
  unfold resize_imgs_call resize_imgs
  rw [hgo]

/-- C8 counterexample: after calling `_resize_imgs` on a one-element list
holding a 100 by 50 image, the caller's list holds the resized 300 by 150
image, not the original: the input list is mutated in place. -/
theorem c8_counterexample :
    (resize_imgs_call [⟨100, 50⟩]).2 ≠ [⟨100, 50⟩] := by
  simp [resize_imgs_call, resize_imgs, resizeGo, resizeOne, image_height]

lemma combineStep_strip (imgs : List Img) (maps : List Dict) (bottom : List ℕ)
    (top : ℕ) (s s' : CState) (k : ℕ)
    (h : combineStep imgs maps bottom top s k = some s') :
    ∃ t, s'.strip = s.strip ++ t := by
  unfold combineStep at h
  cases e1 : bottom[k + 1]? with
  | none => rw [e1] at h; simp at h
  | some bi =>
    rw [e1, Option.some_bind] at h
    cases e2 : maps[bi]? with
    | none => rw [e2] at h; simp at h
    | some m =>
      rw [e2, Option.some_bind] at h
      by_cases hc : s.connect = get_key m 3
      · rw [if_pos hc] at h
        cases e3 : imgs[bi]? with
        | none => rw [e3] at h; simp at h
        | some im =>
          rw [e3, Option.some_bind] at h
          cases e4 : maps[top]? with
          | none => rw [e4] at h; simp at h
          | some mt =>
            rw [e4, Option.some_bind] at h
            injection h with h
            exact ⟨[bi], by rw [← h]⟩
      · rw [if_neg hc] at h
        injection h with h
        exact ⟨[], by rw [← h, List.append_nil]⟩

lemma foldlM_strip (imgs : List Img) (maps : List Dict) (bottom : List ℕ)
    (top : ℕ) : ∀ (ks : List ℕ) (s s' : CState),
    List.foldlM (combineStep imgs maps bottom top) s ks = some s' →
    ∃ t, s'.strip = s.strip ++ t := by
  intro ks
  induction ks with
  | nil =>
      intro s s' h
      simp only [List.foldlM_nil, Option.pure_def] at h
      injection h with h
      exact ⟨[], by rw [← h, List.append_nil]⟩
  | cons k ks ih =>
      intro s s' h
      rw [List.foldlM_cons] at h
      cases e : combineStep imgs maps bottom top s k with
      | none => rw [e] at h; simp at h
      | some s1 =>
          rw [e] at h
          simp only [Option.bind_eq_bind, Option.some_bind] at h
          obtain ⟨t1, ht1⟩ := combineStep_strip imgs maps bottom top s s1 k e
          obtain ⟨t2, ht2⟩ := ih s1 s' h
          exact ⟨t1 ++ t2, by rw [ht2, ht1, List.append_assoc]⟩

lemma foldlM_no_match (imgs : List Img) (maps : List Dict) (bottom : List ℕ)
    (top : ℕ) (conn : List String)
    (hnm : ∀ j bj mj, 1 ≤ j → j ≤ 3 → bottom[j]? = some bj →
            maps[bj]? = some mj → get_key mj 3 ≠ conn) :
    ∀ (ks : List ℕ) (s s' : CState), (∀ k ∈ ks, k ≤ 2) → s.connect = conn →
      List.foldlM (combineStep imgs maps bottom top) s ks = some s' → s' = s := by
  intro ks
  induction ks with
  | nil =>
      intro s s' _ _ h
      simp only [List.foldlM_nil, Option.pure_def] at h
      injection h with h
      exact h.symm
  | cons k ks ih =>
      intro s s' hks hconn h
      rw [List.foldlM_cons] at h
      cases e1 : bottom[k + 1]? with
      | none =>
          unfold combineStep at h
          rw [e1] at h
          simp at h
      | some bk =>
          cases e2 : maps[bk]? with
          | none =>
              unfold combineStep at h
              rw [e1, Option.some_bind, e2] at h
              simp at h
          | some mk =>
              have hne : get_key mk 3 ≠ conn :=
                hnm (k + 1) bk mk (by omega)
                  (by have := hks k (by simp); omega) e1 e2
              have estep : combineStep imgs maps bottom top s k = some s := by
                unfold combineStep
                rw [e1, Option.some_bind, e2, Option.some_bind,
                  if_neg (fun hh => hne (hh.symm.trans hconn))]
              rw [estep] at h
              simp only [Option.bind_eq_bind, Option.some_bind] at h
              exact ih s s' (fun k' hk' => hks k' (by simp [hk'])) hconn h

/-- C4 (amended): when no side face's LEFT-border colors ever equal the
seed face's RIGHT-border connector, the chain break is silent: every scan
iteration leaves the state unchanged, and whenever `_combine_imgs`
returns a result at all (i.e. the top-face paste slice fits, which
happens whenever the seed face is at least `image_height` plus the
top-face width pixels wide) that result's strip consists of the seed face
alone — a strip with fewer than four side faces can be produced as
output. -/
theorem c4_amended (imgs : List Img) (maps : List Dict) (bottom : List ℕ)
    (top : ℕ) (b0 : ℕ) (m0 : Dict) (r : CombineResult)
    (hb0 : bottom[0]? = some b0) (hm0 : maps[b0]? = some m0)
    (hnm : ∀ j bj mj, 1 ≤ j → j ≤ 3 → bottom[j]? = some bj →
            maps[bj]? = some mj → get_key mj 3 ≠ get_key m0 1)
    (hr : combine_imgs imgs maps bottom top = some r) :
    r.state.strip = [b0] := by
  unfold combine_imgs at hr
  rw [hb0, Option.some_bind] at hr
  cases eseed : imgs[b0]? with
  | none => rw [eseed] at hr; simp at hr
  | some seed =>
      rw [eseed, Option.some_bind, hm0, Option.some_bind] at hr
      cases efold : List.foldlM (combineStep imgs maps bottom top)
          ⟨seed, get_key m0 1, 0, [b0]⟩ loopKs with
      | none => rw [efold] at hr; simp at hr
      | some s =>
          rw [efold, Option.some_bind] at hr
          cases etop : imgs[top]? with
          | none => rw [etop] at hr; simp at hr
          | some topImg =>
              rw [etop, Option.some_bind] at hr
              split at hr
              · injection hr with hr
                have hs : s = ⟨seed, get_key m0 1, 0, [b0]⟩ :=
                  foldlM_no_match imgs maps bottom top (get_key m0 1) hnm loopKs
                    ⟨seed, get_key m0 1, 0, [b0]⟩ s (by decide) rfl efold
                rw [← hr, hs]
              · simp at hr

/-- C4 amended-claim witness at the concrete no-match input (seed 600
pixels wide, so the paste fits and a seed-only result is returned). -/
theorem c4_amended_w :
    (⟨⟨⟨300, 600⟩, ["yellow"], 0, [0]⟩, ⟨600, 600⟩,
      ⟨0, 300, 300, 580⟩⟩ : CombineResult).state.strip = [0] :=
  c4_amended [⟨300, 600⟩, ⟨300, 300⟩, ⟨300, 250⟩, ⟨300, 200⟩, ⟨300, 280⟩]
    [[("yellow", 1)], [("blue", 3), ("green", 1)], [("purple", 3)],
     [("red", 3)], [("orange", 2)]] [0, 1, 2, 3] 4 0 [("yellow", 1)] _
    rfl rfl
    (by
      intro j bj mj h1 h3 hbj hmj
      interval_cases j <;> (simp at hbj; subst hbj; simp at hmj; subst hmj; decide))
    (by decide)

/-- C5 (amended): the chain scans the side faces at remaining-list
positions 1, 2, 3 in that order; when the face at position 1 has
LEFT-border colors equal to the seed connector it is appended first, so
the produced strip starts with the seed face followed by that face.
Appended faces are never removed from the candidate list (see the
counterexample for a face appended three times). -/
theorem c5_amended (imgs : List Img) (maps : List Dict) (bottom : List ℕ)
    (top : ℕ) (b0 b1 : ℕ) (m0 m1 : Dict) (r : CombineResult)
    (hb0 : bottom[0]? = some b0) (hb1 : bottom[1]? = some b1)
    (hm0 : maps[b0]? = some m0) (hm1 : maps[b1]? = some m1)
    (hmatch : get_key m1 3 = get_key m0 1)
    (hr : combine_imgs imgs maps bottom top = some r) :
    r.state.strip[0]? = some b0 ∧ r.state.strip[1]? = some b1 := by
  unfold combine_imgs at hr
  rw [hb0, Option.some_bind] at hr
  cases eseed : imgs[b0]? with
  | none => rw [eseed] at hr; simp at hr
  | some seed =>
      rw [eseed, Option.some_bind, hm0, Option.some_bind,
        show loopKs = 0 :: [1, 2, 0, 1, 2, 0, 1, 2] from rfl,
        List.foldlM_cons] at hr
      cases eim : imgs[b1]? with
      | none =>
          have estep : combineStep imgs maps bottom top
              ⟨seed, get_key m0 1, 0, [b0]⟩ 0 = none := by
            unfold combineStep
            rw [show (0:ℕ) + 1 = 1 from rfl, hb1, Option.some_bind, hm1,
              Option.some_bind, if_pos hmatch.symm, eim]
            simp
          rw [estep] at hr
          simp at hr
      | some im =>
          cases etopm : maps[top]? with
          | none =>
              have estep : combineStep imgs maps bottom top
                  ⟨seed, get_key m0 1, 0, [b0]⟩ 0 = none := by
                unfold combineStep
                rw [show (0:ℕ) + 1 = 1 from rfl, hb1, Option.some_bind, hm1,
                  Option.some_bind, if_pos hmatch.symm, eim, Option.some_bind,
                  etopm]
                simp
              rw [estep] at hr
              simp at hr
          | some mt =>
              obtain ⟨S, estep, hSstrip⟩ :
                  ∃ S : CState, combineStep imgs maps bottom top
                      ⟨seed, get_key m0 1, 0, [b0]⟩ 0 = some S ∧
                    S.strip = [b0] ++ [b1] := by
                refine ⟨⟨hconcat seed im, get_key m1 1,
                    if get_key m1 0 = get_key mt 2 then (hconcat seed im).h - im.h
                    else 0, [b0] ++ [b1]⟩, ?_, rfl⟩
                unfold combineStep
                rw [show (0:ℕ) + 1 = 1 from rfl, hb1, Option.some_bind, hm1,
                  Option.some_bind, if_pos hmatch.symm, eim, Option.some_bind,
                  etopm, Option.some_bind]
              rw [estep] at hr
              simp only [Option.bind_eq_bind, Option.some_bind] at hr
              cases efold : List.foldlM (combineStep imgs maps bottom top) S
                  [1, 2, 0, 1, 2, 0, 1, 2] with
              | none => rw [efold] at hr; simp at hr
              | some s =>
                  rw [efold, Option.some_bind] at hr
                  cases etop : imgs[top]? with
                  | none => rw [etop] at hr; simp at hr
                  | some topImg =>
                      rw [etop, Option.some_bind] at hr
                      split at hr
                      · injection hr with hr
                        obtain ⟨t, ht⟩ :=
                          foldlM_strip imgs maps bottom top _ S s efold
                        rw [← hr]
                        constructor <;> simp [ht, hSstrip]
                      · simp at hr

/-- C5 amended-claim witness: face 1's LEFT colors equal the seed
connector `["yellow"]`, and the strip's first two entries are faces 0
and 1. -/
theorem c5_amended_w :
    (⟨⟨⟨300, 1100⟩, [], 0, [0, 1, 2, 3]⟩, ⟨600, 1100⟩,
      ⟨0, 300, 300, 580⟩⟩ : CombineResult).state.strip[0]? = some 0 ∧
    (⟨⟨⟨300, 1100⟩, [], 0, [0, 1, 2, 3]⟩, ⟨600, 1100⟩,
      ⟨0, 300, 300, 580⟩⟩ : CombineResult).state.strip[1]? = some 1 :=
  c5_amended [⟨300, 350⟩, ⟨300, 300⟩, ⟨300, 250⟩, ⟨300, 200⟩, ⟨300, 280⟩]
    [[("yellow", 1)], [("yellow", 3), ("blue", 1), ("red", 0)],
     [("blue", 3), ("purple", 1)], [("purple", 3)],
     [("green", 0), ("orange", 1), ("red", 2), ("pink", 3)]]
    [0, 1, 2, 3] 4 0 1 [("yellow", 1)]
    [("yellow", 3), ("blue", 1), ("red", 0)] _
    rfl rfl rfl rfl (by decide) (by decide)

end CubeDetection
